import Mathlib

/-!
Verification development for the gherkin_reader repository: a shallow
embedding of its line classifier, table/escape decoder, step decoder,
structural parser and argument-type inference, together with theorems
settling the specification claims about them.

Strings are modelled as Lean `String` (a wrapper around `List Char`),
mirroring Rust `&str` as a sequence of characters; all string operations
used by the source (trim, split, split_once, replace) are defined here by
explicit recursion on the character list so that every definition is
executable and kernel-reducible.  Fallible Rust functions returning
`anyhow::Result` are modelled with `Except ParseError`, where `ParseError`
is an inductive type whose constructors carry exactly the data interpolated
into the corresponding `bail!`/`context` format strings of the source.
-/

namespace GherkinReader

/-! ## Character and string helpers (models of Rust `str` methods) -/

/-- Model of Rust `str::trim` (whitespace is modelled as ASCII whitespace,
which covers every character occurring in the repository's inputs). -/
def trimChars (cs : List Char) : List Char :=
  ((cs.dropWhile Char.isWhitespace).reverse.dropWhile Char.isWhitespace).reverse

/-- `str::trim` lifted to `String`. -/
def strTrim (s : String) : String :=
  ⟨trimChars s.data⟩

/-- Model of Rust `str::split_once(sep)`: split at the first occurrence of
`sep`, returning the text before and after it, or `none` if absent. -/
def splitOnceChar (sep : Char) : List Char → Option (List Char × List Char)
  | [] => none
  | c :: rest =>
    if c = sep then some ([], rest)
    else
      match splitOnceChar sep rest with
      | none => none
      | some (pre, post) => some (c :: pre, post)

/-- `str::split_once` lifted to `String`. -/
def strSplitOnce (sep : Char) (s : String) : Option (String × String) :=
  match splitOnceChar sep s.data with
  | none => none
  | some (pre, post) => some (⟨pre⟩, ⟨post⟩)

/-- Prepend a character to the first segment of a segment list (helper for
the split functions below). -/
def consHead (c : Char) : List (List Char) → List (List Char)
  | [] => [[c]]
  | s :: ss => (c :: s) :: ss

/-- Model of Rust `str::split(sep)` on a single separator character: every
occurrence of `sep` is a split point and empty segments are kept. -/
def splitAllChar (sep : Char) : List Char → List (List Char)
  | [] => [[]]
  | c :: rest =>
    if c = sep then [] :: splitAllChar sep rest
    else consHead c (splitAllChar sep rest)

/-- Model of Rust `str::split(pred)` on a character predicate. -/
def splitPred (p : Char → Bool) : List Char → List (List Char)
  | [] => [[]]
  | c :: rest =>
    if p c then [] :: splitPred p rest
    else consHead c (splitPred p rest)

/-! ## Line classification data model (gherkin_tags.rs / step.rs) -/

/-- `StepKeyword` from the source. -/
inductive StepKeyword where
  | Given
  | When
  | Then
  | And
  | But
  | Bullet
deriving DecidableEq, Repr

/-- `GroupingKeyword` from gherkin_tags.rs (the most complete variant,
including `Background`). -/
inductive GroupingKeyword where
  | ScenarioOutline
  | Scenario
  | Background
  | Examples
  | Feature
deriving DecidableEq, Repr

/-- `GherkinLine` from the source.  The `Tags` payload is the materialised
tag list: the Rust value holds a lazy iterator over
`after_at_sign.split('@').map(str::trim)`, and every consumer immediately
drains it into a `Vec`, so the list of produced tag names is the faithful
value-level model. -/
inductive GherkinLine where
  | Tags (tags : List String)
  | StepLine (kw : StepKeyword) (text : String)
  | BeginGroup (kw : GroupingKeyword) (title : String)
  | FreeText (text : String)
  | ExampleEntry (text : String)
deriving DecidableEq, Repr

/-- Structured model of the `anyhow` error values produced by the parser.
Each constructor corresponds to one `bail!` site (or one `.context(...)`
wrapper, for the constructors taking a `cause`), and carries exactly the
data interpolated into that site's format string. -/
inductive ParseError where
  | malformedRow (input : String)
  | emptyStepContent (input : String)
  | unterminatedVariable (input : String)
  | invalidStep (kw : StepKeyword) (text name : String) (cause : ParseError)
  | titledExamples (title : String)
  | eofExpectingLabels
  | expectedLabels (line : GherkinLine)
  | labelsCtx (line : GherkinLine) (cause : ParseError)
  | rowCtx (row : String) (cause : ParseError)
  | rowCountMismatch (rowLen labelsLen : Nat) (labels row : List String)
  | unexpectedInTable (line : GherkinLine)
  | unexpectedOutlineLine (line : Option GherkinLine) (name : String)
  | eofAfterTags (tags : List String)
  | exampleBlockCtx (index : Nat) (name : String) (cause : ParseError)
  | featureNoScenarios
  | unexpectedInDescription (name : String) (line : GherkinLine)
  | outlineCtx (outlineName featureName : String) (cause : ParseError)
  | secondBackground (feature newName existingName : String)
  | unexpectedTopLevel (kw : GroupingKeyword) (name : String)
  | unexpectedAfterItem (name : String) (line : GherkinLine)
  | loopLimit
deriving DecidableEq, Repr

/-! ## Table/escape decoder (`ExampleRow::from_str`, feature.rs) -/

/-- `ExampleRow` from feature.rs.  Cells are plain strings: the Rust
`Cow<'a, str>` borrowed/owned distinction is a memory optimisation with no
value-level content. -/
structure ExampleRow where
  entries : List String
deriving DecidableEq, Repr

/-- The escape-aware split at the heart of `ExampleRow::from_str`: scan the
characters left to right with an `escaping` flag; an unescaped `\` starts an
escape (and is kept in the segment), the escaped character is consumed
verbatim, and an unescaped `|` is a split point.  Returns the segments
together with the `ever_escaped` flag recording whether any unescaped `\`
was seen. -/
def splitEsc : List Char → Bool → List (List Char) × Bool
  | [], _ => ([[]], false)
  | c :: rest, escaping =>
    if escaping then
      let (segs, ev) := splitEsc rest false
      (consHead c segs, ev)
    else if c = '\\' then
      let (segs, _ev) := splitEsc rest true
      (consHead c segs, true)
    else if c = '|' then
      let (segs, ev) := splitEsc rest false
      ([] :: segs, ev)
    else
      let (segs, ev) := splitEsc rest false
      (consHead c segs, ev)

/-- Model of `entry.contains("\\|")` specialised to the two-character
pattern `\|`. -/
def containsPipeEsc : List Char → Bool
  | '\\' :: '|' :: _ => true
  | _ :: rest => containsPipeEsc rest
  | [] => false

/-- Model of `entry.replace("\\|", "|")` (left-to-right, non-overlapping)
specialised to the two-character pattern `\|`. -/
def replacePipeEsc : List Char → List Char
  | '\\' :: '|' :: rest => '|' :: replacePipeEsc rest
  | c :: rest => c :: replacePipeEsc rest
  | [] => []

/-- The second pass of `ExampleRow::from_str`: unescape `\|` in the cells
that contain it. -/
def unescapeEntry (s : String) : String :=
  if containsPipeEsc s.data then ⟨replacePipeEsc s.data⟩ else s

/-- `ExampleRow::from_str` (feature.rs lines 46-97): split the line on
unescaped `|`, drop the first segment (`skip(1)`), trim each remaining
segment, unescape `\|` if any escape was seen, then `pop` the final
segment; the pop failing (no segment left) is the malformed-row error. -/
def ExampleRow.fromStr (input : String) : Except ParseError ExampleRow :=
  let scanned := splitEsc input.data false
  let entries := (scanned.1.drop 1).map (fun cs => strTrim ⟨cs⟩)
  let entries := if scanned.2 then entries.map unescapeEntry else entries
  match entries with
  | [] => .error (.malformedRow input)
  | _ => .ok ⟨entries.dropLast⟩

/-! ## Step decoder (`Step::new`, step.rs) -/

/-- `Step` from step.rs.  The source comments state the invariant
`literals.len() == variables.len() + 1`.  The field `vars` models the
source field `variables` (that spelling is a reserved word in Lean). -/
structure Step where
  keyword : StepKeyword
  literals : List String
  vars : List String
deriving DecidableEq, Repr

/-- The loop of `Step::new`: starting after the first literal, repeatedly
take a token as a variable name followed by a token as a literal; a lone
trailing token is the "unterminated variable expression" failure. -/
def readVarLit : List (List Char) → Option (List (List Char) × List (List Char))
  | [] => some ([], [])
  | [_] => none
  | v :: l :: rest =>
    match readVarLit rest with
    | none => none
    | some (ls, vs) => some (l :: ls, v :: vs)

/-- The predicate `|c| c == '<' || c == '>'` that `Step::new` splits on. -/
def isAngle (c : Char) : Bool :=
  c = '<' || c = '>'

/-- `Step::new` (step.rs lines 98-128): trim the text (twice, as the source
does), split it on `<` and `>`, take the first token as the leading
literal, then alternately read variable names and literals from the
remaining tokens. -/
def Step.new (keyword : StepKeyword) (input : String) : Except ParseError Step :=
  let text := strTrim input
  let text := strTrim text
  match splitPred isAngle text.data with
  | [] => .error (.emptyStepContent input)
  | first :: rest =>
    match readVarLit rest with
    | none => .error (.unterminatedVariable input)
    | some (ls, vs) =>
      .ok ⟨keyword, (⟨first⟩ : String) :: ls.map String.mk, vs.map String.mk⟩

/-! ## Line classifier (`GherkinLine::from_str`, gherkin_tags.rs) -/

/-- The colon branch of `GherkinLine::from_str`: if the text before the
first `:` is (after trimming) one of the grouping keywords, classify as
`BeginGroup`; otherwise fall through.  The source's `"Example "` arm is
kept verbatim: it carries a trailing space and is compared against the
trimmed keyword. -/
def classifyGroup (input : String) : Option GherkinLine :=
  match strSplitOnce ':' input with
  | none => none
  | some (kw, title) =>
    let keyword := strTrim kw
    let title := strTrim title
    if keyword = "Scenario" ∨ keyword = "Example " then
      some (.BeginGroup .Scenario title)
    else if keyword = "Examples" ∨ keyword = "Scenarios" then
      some (.BeginGroup .Examples title)
    else if keyword = "Scenario Outline" ∨ keyword = "Scenario Template" then
      some (.BeginGroup .ScenarioOutline title)
    else if keyword = "Feature" then
      some (.BeginGroup .Feature title)
    else if keyword = "Background" then
      some (.BeginGroup .Background title)
    else
      none

/-- The space branch of `GherkinLine::from_str`: if the text before the
first space is one of the step keywords, classify as `StepLine`; otherwise
fall through. -/
def classifyStep (input : String) : Option GherkinLine :=
  match strSplitOnce ' ' input with
  | none => none
  | some (kw, title) =>
    let keyword := strTrim kw
    let title := strTrim title
    if keyword = "Given" then some (.StepLine .Given title)
    else if keyword = "When" then some (.StepLine .When title)
    else if keyword = "Then" then some (.StepLine .Then title)
    else if keyword = "And" then some (.StepLine .And title)
    else if keyword = "But" then some (.StepLine .But title)
    else if keyword = "*" then some (.StepLine .Bullet title)
    else none

/-- The tag list produced by `GherkinTags::into_iter` (tags.rs): split the
text after the first `@` on `@` and trim each piece. -/
def gherkinTagsList (afterAtSign : String) : List String :=
  (splitAllChar '@' afterAtSign.data).map (fun cs => strTrim ⟨cs⟩)

/-- `GherkinLine::from_str` (gherkin_tags.rs lines 14-63): trim the line,
then try in order: grouping header (`<keyword>:<title>`), step line
(`<keyword> <text>`), tag line (leading `@`), table row (leading `|`),
free text. -/
def GherkinLine.fromStr (input : String) : GherkinLine :=
  let input := strTrim input
  match classifyGroup input with
  | some line => line
  | none =>
    match classifyStep input with
    | some line => line
    | none =>
      match strSplitOnce '@' input with
      | some (pre, afterAtSign) =>
        if pre = "" then .Tags (gherkinTagsList afterAtSign)
        else if input.data.head? = some '|' then .ExampleEntry input
        else .FreeText input
      | none =>
        if input.data.head? = some '|' then .ExampleEntry input
        else .FreeText input

/-! ## C# type inference (`CSType`, export.rs) -/

/-- `CSType` from export.rs (the self-consistent final variant with the
four inferable types). -/
inductive CSType where
  | Bool
  | Int64
  | Double
  | String
deriving DecidableEq, Repr

/-- `CSType::lowest_common_type` (export.rs lines 26-34): identical types
persist, any mismatch collapses to `String`. -/
def CSType.lowestCommonType (x y : CSType) : CSType :=
  if x = y then x else .String

/-- Digit-sequence numeric value, for the i64 range check. -/
def natOfDigits (ds : List Char) : Nat :=
  ds.foldl (fun acc c => 10 * acc + (c.toNat - 48)) 0

/-- Strip one leading `+` or `-` sign, reporting whether it was `-`. -/
def stripSign (cs : List Char) : Bool × List Char :=
  match cs with
  | '+' :: rest => (false, rest)
  | '-' :: rest => (true, rest)
  | _ => (false, cs)

/-- Acceptance model of Rust `str::parse::<i64>()`: an optional sign
followed by one or more ASCII digits, whose value fits in a signed 64-bit
integer (overflow is a parse error in Rust). -/
def parseI64Ok (s : String) : Bool :=
  let (neg, digits) := stripSign s.data
  !digits.isEmpty && digits.all Char.isDigit &&
    (if neg then natOfDigits digits ≤ 2 ^ 63 else natOfDigits digits ≤ 2 ^ 63 - 1)

/-- A mantissa of the Rust float grammar: digits with at most one `.`, and
at least one digit overall (`Digit+ | Digit+ . Digit* | Digit* . Digit+`). -/
def floatMantissaOk (cs : List Char) : Bool :=
  match splitAllChar '.' cs with
  | [whole] => !whole.isEmpty && whole.all Char.isDigit
  | [whole, frac] =>
    (!whole.isEmpty || !frac.isEmpty) &&
      whole.all Char.isDigit && frac.all Char.isDigit
  | _ => false

/-- Acceptance model of Rust `str::parse::<f64>()`: an optional sign, then
a case-insensitive `inf`/`infinity`/`nan`, or a mantissa with an optional
`e`/`E` exponent (itself a signed nonempty digit string).  Rust float
parsing never fails on out-of-range values, so acceptance is purely a
grammar check. -/
def parseF64Ok (s : String) : Bool :=
  let body := (stripSign s.data).2
  let lower := body.map Char.toLower
  if lower = "inf".data || lower = "infinity".data || lower = "nan".data then
    true
  else
    match splitOnceChar 'e' (body.map Char.toLower) with
    | some (mantissa, expPart) =>
      let expDigits := (stripSign expPart).2
      floatMantissaOk mantissa && !expDigits.isEmpty && expDigits.all Char.isDigit
    | none => floatMantissaOk body

/-- Acceptance model of Rust `str::parse::<bool>()`: exactly `true` or
`false`. -/
def parseBoolOk (s : String) : Bool :=
  s = "true" || s = "false"

/-- `CSType::from` (export.rs lines 35-45): ordered trial of i64, f64,
bool parsing, else `String`.  (Defined outside the `CSType` namespace so
that the argument type `String` is not captured by the constructor of the
same name.) -/
def csTypeFrom (input : String) : CSType :=
  if parseI64Ok input then .Int64
  else if parseF64Ok input then .Double
  else if parseBoolOk input then .Bool
  else .String

/-! ## Document model (feature.rs) -/

/-- `Scenario` from feature.rs. -/
structure Scenario where
  name : String
  steps : List Step
  tags : List String
deriving DecidableEq, Repr

/-- `ExampleBlock` from feature.rs. -/
structure ExampleBlock where
  examples : List ExampleRow
  labels : ExampleRow
  tags : List String
deriving DecidableEq, Repr

/-- `ScenarioOutline` from feature.rs. -/
structure ScenarioOutline where
  name : String
  steps : List Step
  exampleBlocks : List ExampleBlock
  tags : List String
deriving DecidableEq, Repr

/-- `FeatureItem` from feature.rs. -/
inductive FeatureItem where
  | Bare (s : Scenario)
  | Outline (o : ScenarioOutline)
deriving DecidableEq, Repr

/-- `Feature` from feature.rs. -/
structure Feature where
  name : String
  freeText : List String
  items : List FeatureItem
  background : Option Scenario
  tags : List String
deriving DecidableEq, Repr

/-! ## Structural parser (feature.rs)

Each Rust `from_lines` takes an iterator by `&mut` and returns the parsed
value together with the first line it read but did not consume.  The
embedding threads the iterator explicitly: every parse function takes the
list of remaining lines and returns the parsed value, the lookahead line,
and the lines still unread.  The two dispatch loops whose recursion is not
structural on that list (`Feature::from_lines` items loop,
`ScenarioOutline::from_lines` examples loop) are written with an explicit
iteration bound, initialised by their wrappers to more than the number of
remaining lines; since every loop iteration that continues has consumed at
least one line, the bound is never reached, and no theorem below depends
on the `loopLimit` branch. -/

/-- The step-reading loop shared by `Scenario::from_lines` and
`Background` parsing: decode `StepLine`s via `Step::new` until a non-step
line (or end of input) appears, returning it as the terminator. -/
def readSteps (name : String) :
    List GherkinLine →
    Except ParseError (List Step × Option GherkinLine × List GherkinLine)
  | [] => .ok ([], none, [])
  | line :: rest =>
    match line with
    | .StepLine kw text =>
      match Step.new kw text with
      | .error e => .error (.invalidStep kw text name e)
      | .ok step =>
        match readSteps name rest with
        | .error e => .error e
        | .ok (steps, term, rem) => .ok (step :: steps, term, rem)
    | other => .ok ([], some other, rest)

/-- `Scenario::from_lines` (feature.rs lines 324-354). -/
def Scenario.fromLines (name : String) (lines : List GherkinLine) :
    Except ParseError (Scenario × Option GherkinLine × List GherkinLine) :=
  match readSteps name lines with
  | .error e => .error e
  | .ok (steps, term, rem) => .ok (⟨name, steps, []⟩, term, rem)

/-- The row-reading loop of `ExampleBlock::from_lines`: `BeginGroup` and
`Tags` lines terminate the block, `ExampleEntry` lines decode into rows
checked against the label count, anything else is an error. -/
def readRows (labels : ExampleRow) :
    List GherkinLine →
    Except ParseError (List ExampleRow × Option GherkinLine × List GherkinLine)
  | [] => .ok ([], none, [])
  | line :: rest =>
    match line with
    | .BeginGroup kw title => .ok ([], some (.BeginGroup kw title), rest)
    | .Tags ts => .ok ([], some (.Tags ts), rest)
    | .ExampleEntry row =>
      match ExampleRow.fromStr row with
      | .error e => .error (.rowCtx row e)
      | .ok exampleRow =>
        if labels.entries.length ≠ exampleRow.entries.length then
          .error (.rowCountMismatch exampleRow.entries.length
            labels.entries.length labels.entries exampleRow.entries)
        else
          match readRows labels rest with
          | .error e => .error e
          | .ok (rows, term, rem) => .ok (exampleRow :: rows, term, rem)
    | other => .error (.unexpectedInTable other)

/-- `ExampleBlock::from_lines` (feature.rs lines 376-452): a non-empty
title is fatal, the next line must decode into the labels row, then the
example rows follow. -/
def ExampleBlock.fromLines (title : String) (lines : List GherkinLine) :
    Except ParseError (ExampleBlock × Option GherkinLine × List GherkinLine) :=
  if ¬ (strTrim title).data.isEmpty then .error (.titledExamples title)
  else
    match lines with
    | [] => .error .eofExpectingLabels
    | labelLine :: rest =>
      match labelLine with
      | .ExampleEntry row =>
        match ExampleRow.fromStr row with
        | .error e => .error (.labelsCtx (.ExampleEntry row) e)
        | .ok labels =>
          match readRows labels rest with
          | .error e => .error e
          | .ok (rows, term, rem) => .ok (⟨rows, labels, []⟩, term, rem)
      | other => .error (.expectedLabels other)

/-- The step-reading loop of `ScenarioOutline::from_lines`: steps until a
`Tags` or `BeginGroup` boundary line; anything else (including end of
input) is an error. -/
def readOutlineSteps (name : String) :
    List GherkinLine →
    Except ParseError (List Step × GherkinLine × List GherkinLine)
  | [] => .error (.unexpectedOutlineLine none name)
  | line :: rest =>
    match line with
    | .StepLine kw text =>
      match Step.new kw text with
      | .error e => .error (.invalidStep kw text name e)
      | .ok step =>
        match readOutlineSteps name rest with
        | .error e => .error e
        | .ok (steps, boundary, rem) => .ok (step :: steps, boundary, rem)
    | .Tags ts => .ok ([], .Tags ts, rest)
    | .BeginGroup kw title => .ok ([], .BeginGroup kw title, rest)
    | other => .error (.unexpectedOutlineLine (some other) name)

/-- The examples loop of `ScenarioOutline::from_lines` (feature.rs lines
503-542): accumulate `Tags` lines into the pending buffer `tags`; on an
`Examples` header parse an `ExampleBlock`, attach the drained buffer to it
and continue; any other `BeginGroup`, or any other line, terminates the
outline. -/
def outlineBlocksGo (name : String) :
    Nat → List String → List ExampleBlock → GherkinLine → List GherkinLine →
    Except ParseError (List ExampleBlock × Option GherkinLine × List GherkinLine)
  | 0, _, _, _, _ => .error .loopLimit
  | fuel + 1, tags, acc, line, lines =>
    match line with
    | .Tags newTags =>
      match lines with
      | next :: rest => outlineBlocksGo name fuel (tags ++ newTags) acc next rest
      | [] => .error (.eofAfterTags (tags ++ newTags))
    | .BeginGroup .Examples groupName =>
      match ExampleBlock.fromLines groupName lines with
      | .error e => .error (.exampleBlockCtx (acc.length + 1) name e)
      | .ok (block, nextLine, rest) =>
        let block := { block with tags := block.tags ++ tags }
        match nextLine with
        | some next => outlineBlocksGo name fuel [] (acc ++ [block]) next rest
        | none => .ok (acc ++ [block], none, rest)
    | .BeginGroup kw title => .ok (acc, some (.BeginGroup kw title), lines)
    | other => .ok (acc, some other, lines)

/-- `ScenarioOutline::from_lines` (feature.rs lines 462-553). -/
def ScenarioOutline.fromLines (name : String) (lines : List GherkinLine) :
    Except ParseError (ScenarioOutline × Option GherkinLine × List GherkinLine) :=
  match readOutlineSteps name lines with
  | .error e => .error e
  | .ok (steps, boundary, rest) =>
    match outlineBlocksGo name (rest.length + 1) [] [] boundary rest with
    | .error e => .error e
    | .ok (blocks, term, rem) => .ok (⟨name, steps, blocks, []⟩, term, rem)

/-- The description loop of `Feature::from_lines` (feature.rs lines
217-237): free text and tags accumulate until the first `BeginGroup`
header; a step or table row here is fatal, as is end of input. -/
def readDescription (name : String) :
    List GherkinLine →
    Except ParseError ((List String × List String × GroupingKeyword × String) ×
      List GherkinLine)
  | [] => .error .featureNoScenarios
  | line :: rest =>
    match line with
    | .FreeText text =>
      match readDescription name rest with
      | .error e => .error e
      | .ok ((freeText, tags, kw, title), rem) =>
        .ok ((text :: freeText, tags, kw, title), rem)
    | .Tags newTags =>
      match readDescription name rest with
      | .error e => .error e
      | .ok ((freeText, tags, kw, title), rem) =>
        .ok ((freeText, newTags ++ tags, kw, title), rem)
    | .BeginGroup kw title => .ok (([], [], kw, title), rest)
    | bad => .error (.unexpectedInDescription name bad)

/-- The tail of each iteration of the `Feature::from_lines` items loop:
inspect the lookahead line returned by the nested parse.  `Tags` extend
`item_tags` and leave the current group keyword and title unchanged (so
the loop re-parses with the same header — this is exactly what the source
does); `BeginGroup` installs the new header; anything else is fatal; end
of input stops the loop. -/
def itemBoundary (featureName : String) (itemTags : List String)
    (groupKw : GroupingKeyword) (groupName : String) :
    Option GherkinLine →
    Except ParseError (Option (List String × GroupingKeyword × String))
  | none => .ok none
  | some (.Tags newTags) => .ok (some (itemTags ++ newTags, groupKw, groupName))
  | some (.BeginGroup kw title) => .ok (some (itemTags, kw, title))
  | some other => .error (.unexpectedAfterItem featureName other)

/-- The items loop of `Feature::from_lines` (feature.rs lines 240-300).
The pending buffer `tags` (holding tag lines read before the first item)
is drained only by the `ScenarioOutline` arm; the `Scenario` and
`Background` arms attach no tags, and `itemTags` is accumulated but never
attached to anything — both faithful to the source. -/
def featureItemsGo (featureName : String) :
    Nat → List String → List String → Option Scenario → List FeatureItem →
    GroupingKeyword → String → List GherkinLine →
    Except ParseError (Option Scenario × List FeatureItem × List GherkinLine)
  | 0, _, _, _, _, _, _, _ => .error .loopLimit
  | fuel + 1, tags, itemTags, background, items, groupKw, groupName, lines =>
    match groupKw with
    | .ScenarioOutline =>
      match ScenarioOutline.fromLines groupName lines with
      | .error e => .error (.outlineCtx groupName featureName e)
      | .ok (data, nextLine, rest) =>
        let data := { data with tags := data.tags ++ tags }
        match itemBoundary featureName itemTags groupKw groupName nextLine with
        | .error e => .error e
        | .ok none => .ok (background, items ++ [.Outline data], rest)
        | .ok (some (itemTags1, kw1, name1)) =>
          featureItemsGo featureName fuel [] itemTags1 background
            (items ++ [.Outline data]) kw1 name1 rest
    | .Scenario =>
      match Scenario.fromLines groupName lines with
      | .error e => .error e
      | .ok (scenario, nextLine, rest) =>
        match itemBoundary featureName itemTags groupKw groupName nextLine with
        | .error e => .error e
        | .ok none => .ok (background, items ++ [.Bare scenario], rest)
        | .ok (some (itemTags1, kw1, name1)) =>
          featureItemsGo featureName fuel tags itemTags1 background
            (items ++ [.Bare scenario]) kw1 name1 rest
    | .Background =>
      match Scenario.fromLines groupName lines with
      | .error e => .error e
      | .ok (newBackground, nextLine, rest) =>
        match background with
        | some existing =>
          .error (.secondBackground featureName newBackground.name existing.name)
        | none =>
          match itemBoundary featureName itemTags groupKw groupName nextLine with
          | .error e => .error e
          | .ok none => .ok (some newBackground, items, rest)
          | .ok (some (itemTags1, kw1, name1)) =>
            featureItemsGo featureName fuel tags itemTags1 (some newBackground)
              items kw1 name1 rest
    | other => .error (.unexpectedTopLevel other groupName)

/-- `Feature::from_lines` (feature.rs lines 204-315): read the description
(free text and pre-item tags), then run the items loop; the constructed
feature carries empty tags (the caller `Feature::from_str` owns the tags
read before the `Feature:` header). -/
def Feature.fromLines (name : String) (lines : List GherkinLine) :
    Except ParseError (Feature × Option GherkinLine × List GherkinLine) :=
  match readDescription name lines with
  | .error e => .error e
  | .ok ((freeText, tags, groupKw, groupName), rest) =>
    match featureItemsGo name (rest.length + 1) tags [] none [] groupKw groupName rest with
    | .error e => .error e
    | .ok (background, items, rem) =>
      .ok (⟨name, freeText, items, background, []⟩, none, rem)

/-! ## Argument-type inference (`calculate_arg_types`, export.rs lines 90-124) -/

/-- The per-cell classification inside `calculate_arg_types`: the `i`-th
entry of the row if present (`CSType::from`), else `String`. -/
def cellType (i : Nat) (row : ExampleRow) : CSType :=
  match row.entries.get? i with
  | some arg => csTypeFrom arg
  | none => CSType.String

/-- Model of `Iterator::reduce` with `lowest_common_type`: left fold with
the first element as the initial accumulator, `none` on an empty list. -/
def reduceTypes : List CSType → Option CSType
  | [] => none
  | x :: xs => some (xs.foldl CSType.lowestCommonType x)

/-- The flattened row sequence `blocks.iter().flat_map(|b| &b.examples)`. -/
def allExampleRows (blocks : List ExampleBlock) : List ExampleRow :=
  (blocks.map ExampleBlock.examples).flatten

/-- The argument count of `calculate_arg_types`: the label count of the
first block, `0` with no blocks. -/
def argCount (blocks : List ExampleBlock) : Nat :=
  match blocks.head? with
  | some block => block.labels.entries.length
  | none => 0

/-- `calculate_arg_types` (export.rs lines 90-124, duplicated at
feature.rs lines 555-589): for each column index, reduce the per-row cell
classifications with `lowest_common_type`, defaulting to `String` when
there are no rows. -/
def calculateArgTypes (blocks : List ExampleBlock) : List CSType :=
  (List.range (argCount blocks)).map fun i =>
    (reduceTypes ((allExampleRows blocks).map (cellType i))).getD .String

/-! ## Derived definitions used by the theorems -/

/-- The canonical delimiter at a position: `<` when a variable is being
opened next, `>` when one is being closed. -/
def canonDelim (openNext : Bool) : Char :=
  if openNext then '<' else '>'

/-- Canonicalise the angle-bracket delimiters of a character list: the
i-th delimiter character (`<` or `>`, in order of occurrence) is replaced
by `<` at odd positions and `>` at even positions.  On text whose
delimiters already alternate `<`, `>`, `<`, `>`, … this is the
identity. -/
def canonAngleChars : List Char → Bool → List Char
  | [], _ => []
  | c :: rest, openNext =>
    if isAngle c then canonDelim openNext :: canonAngleChars rest (!openNext)
    else c :: canonAngleChars rest openNext

/-- Delimiter canonicalisation lifted to `String`. -/
def canonAngles (s : String) : String :=
  ⟨canonAngleChars s.data true⟩

/-- Join a segment list, interposing alternating canonical delimiters. -/
def joinAlt : List (List Char) → Bool → List Char
  | [], _ => []
  | [p], _ => p
  | p :: ps, b => p ++ canonDelim b :: joinAlt ps (!b)

/-- Interleave literals and variables — literal, variable, literal, …,
literal — re-enclosing each variable in angle brackets. -/
def reconstructChars : List (List Char) → List (List Char) → List Char
  | l :: ls, v :: vs => l ++ '<' :: (v ++ '>' :: reconstructChars ls vs)
  | l :: _, [] => l
  | [], _ => []

/-- The step text reconstructed from a `Step`'s literals and variables. -/
def Step.reconstruct (s : Step) : String :=
  ⟨reconstructChars (s.literals.map String.data) (s.vars.map String.data)⟩

/-! # Theorems -/

/-! ## Helper lemmas about trimming -/

/-- A prefix of a `dropWhile`-fixed list is itself `dropWhile`-fixed. -/
theorem dropWhile_self_of_prefix {α : Type} (p : α → Bool) {t l : List α}
    (hl : l.dropWhile p = l) (ht : t <+: l) : t.dropWhile p = t := by
  cases t with
  | nil => rfl
  | cons c t1 =>
    obtain ⟨s, hs⟩ := ht
    rw [← hs, List.cons_append, List.dropWhile_cons] at hl
    rw [List.dropWhile_cons]
    by_cases hp : p c
    · exfalso
      rw [if_pos hp] at hl
      have hle := (List.dropWhile_suffix (l := t1 ++ s) p).length_le
      rw [hl] at hle
      simp at hle
    · rw [if_neg hp]

/-- Trimmed text has no leading whitespace. -/
theorem dropWhile_trimChars (cs : List Char) :
    (trimChars cs).dropWhile Char.isWhitespace = trimChars cs := by
  apply dropWhile_self_of_prefix (l := cs.dropWhile Char.isWhitespace)
  · exact List.dropWhile_idempotent _ _
  · rw [← List.reverse_suffix]
    show (((cs.dropWhile Char.isWhitespace).reverse.dropWhile Char.isWhitespace).reverse).reverse <:+ _
    rw [List.reverse_reverse]
    exact List.dropWhile_suffix _

/-- `str::trim` is idempotent on character lists. -/
theorem trimChars_idem (cs : List Char) : trimChars (trimChars cs) = trimChars cs := by
  show (((trimChars cs).dropWhile Char.isWhitespace).reverse.dropWhile
    Char.isWhitespace).reverse = trimChars cs
  rw [dropWhile_trimChars]
  show ((((cs.dropWhile Char.isWhitespace).reverse.dropWhile
    Char.isWhitespace).reverse).reverse.dropWhile Char.isWhitespace).reverse = _
  rw [List.reverse_reverse, List.dropWhile_idempotent]
  rfl

/-- `str::trim` is idempotent. -/
theorem strTrim_idem (s : String) : strTrim (strTrim s) = strTrim s :=
  congrArg String.mk (trimChars_idem s.data)

/-! ## Helper lemmas about the angle-bracket split -/

/-- Splitting on a predicate yields one more segment than the number of
matching characters. -/
theorem splitPred_length (p : Char → Bool) (cs : List Char) :
    (splitPred p cs).length = cs.countP p + 1 := by
  induction cs with
  | nil => rfl
  | cons c rest ih =>
    by_cases h : p c
    · simp [splitPred, h, List.countP_cons, ih]
    · cases hs : splitPred p rest with
      | nil => rw [hs] at ih; simp at ih
      | cons s ss =>
        rw [hs] at ih
        simp only [List.length_cons] at ih
        simp [splitPred, h, hs, consHead, List.countP_cons, ih]

/-- Splitting never yields an empty segment list. -/
theorem splitPred_ne_nil (p : Char → Bool) (cs : List Char) :
    splitPred p cs ≠ [] := by
  intro h
  have hlen := splitPred_length p cs
  rw [h] at hlen
  simp at hlen

/-! ## Helper lemmas about the step-token pairing loop -/

/-- The pairing loop succeeds exactly on token lists of even length. -/
theorem readVarLit_isSome : ∀ ts : List (List Char),
    (readVarLit ts).isSome = decide (ts.length % 2 = 0)
  | [] => by simp [readVarLit]
  | [_] => by simp [readVarLit]
  | _ :: _ :: rest => by
    have ih := readVarLit_isSome rest
    cases h : readVarLit rest with
    | none =>
      rw [h, Option.isSome_none] at ih
      simp only [readVarLit, h, Option.isSome_none, List.length_cons]
      rw [eq_comm, decide_eq_false_iff_not] at ih ⊢
      omega
    | some pr =>
      rw [h, Option.isSome_some] at ih
      simp only [readVarLit, h, Option.isSome_some, List.length_cons]
      rw [eq_comm, decide_eq_true_eq] at ih ⊢
      omega

/-- On success, the pairing loop returns as many literals as variables. -/
theorem readVarLit_lengths : ∀ (ts ls vs : List (List Char)),
    readVarLit ts = some (ls, vs) → ls.length = vs.length
  | [], ls, vs => by
    intro h
    simp only [readVarLit, Option.some.injEq, Prod.mk.injEq] at h
    rw [← h.1, ← h.2]
  | [_], ls, vs => by
    intro h
    simp [readVarLit] at h
  | _ :: l :: rest, ls, vs => by
    intro h
    cases hr : readVarLit rest with
    | none => rw [readVarLit, hr] at h; exact absurd h (by simp)
    | some pr =>
      obtain ⟨ls1, vs1⟩ := pr
      have ih := readVarLit_lengths rest ls1 vs1 hr
      rw [readVarLit, hr] at h
      simp only [Option.some.injEq, Prod.mk.injEq] at h
      rw [← h.1, ← h.2]
      simp [ih]

/-! ## Claim C1 -/

/-- Claim C1 (code bug): the claim states that decoding a table-row line
fails whenever the line has fewer than two unescaped `|` delimiters, and
that every successfully decoded row has at least one cell.  The code
instead only fails when there are zero delimiters: on `|abc` (one
delimiter) `ExampleRow::from_str` succeeds and returns a row with zero
cells — contradicting both halves of the claim as well as the code's own
error message, which declares rows "containing less than two pipes"
malformed.  On `abc` (zero delimiters) it does fail as claimed. -/
theorem claim1_row_decoder_code_bug :
    ExampleRow.fromStr "|abc" = .ok ⟨[]⟩ ∧
      ExampleRow.fromStr "abc" = .error (.malformedRow "abc") :=
  ⟨rfl, rfl⟩

/-! ## Claim C4 -/

/-- Claim C4 (code bug): the claim states that `Example: <title>` is
classified like `Scenario: <title>`.  In the code the match arm reads
`"Example "` with a trailing space, which can never equal the trimmed
keyword, so the arm is dead and `Example: <title>` falls through to the
`FreeText` fallback, while `Scenario: <title>` classifies as a
`Scenario` group header. -/
theorem claim4_example_synonym_code_bug :
    GherkinLine.fromStr "Example: Shave a yak" = .FreeText "Example: Shave a yak" ∧
      GherkinLine.fromStr "Scenario: Shave a yak" = .BeginGroup .Scenario "Shave a yak" :=
  ⟨rfl, rfl⟩

/-! ## Claim C5 -/

/-- Claim C5 (confirmed): in the escape-aware split an unescaped backslash
escapes the following character — both go into the current cell and the
following character is not a split point even when it is `|` — and a row
whose cell text contains `a\|b` decodes to the single cell `a|b`, not two
cells. -/
theorem claim5_escaped_pipe_roundtrip :
    (∀ (c : Char) (rest : List Char),
      (splitEsc ('\\' :: c :: rest) false).1 =
        consHead '\\' (consHead c (splitEsc rest false).1)) ∧
      ExampleRow.fromStr "| a\\|b |" = .ok ⟨["a|b"]⟩ :=
  ⟨fun _ _ => rfl, rfl⟩

/-! ## Claim C2 -/

/-- Claim C2 (corrected), counterexample: the claim states that tags
immediately preceding a `Scenario:` header attach to that scenario.  In
the code, `Feature::from_lines` drains its pending tag buffer only into
`ScenarioOutline` items and attaches nothing to `Scenario` items, so the
tag line `@T1` preceding `Scenario: S` is read into the buffer and then
dropped: the parsed scenario carries the empty tag list, not `["T1"]`. -/
theorem claim2_counterexample_scenario_tags_dropped :
    Feature.fromLines "F" [.Tags ["T1"], .BeginGroup .Scenario "S"] =
      .ok (⟨"F", [], [.Bare ⟨"S", [], []⟩], none, []⟩, none, []) ∧
      (["T1"] : List String) ≠ [] :=
  ⟨rfl, by simp⟩

/-- Claim C2 (corrected, amended): inside a scenario outline each run of
tag lines accumulates into a pending buffer that is attached to the next
`Examples` block only and drained there exactly once — tags immediately
preceding an `Examples:` block attach to that block only, not to sibling
blocks or to the enclosing outline (first conjunct, for arbitrary tag
names `t1`, `t2` on two sibling blocks).  At feature level, however, tags
immediately preceding a `Scenario:` header do not attach to that scenario:
the feature-level buffer is drained only into `ScenarioOutline` items, and
the `item_tags` buffer collected between items is never attached to
anything (second conjunct). -/
theorem claim2_amended_tag_attachment (t1 t2 : String) :
    ScenarioOutline.fromLines "O"
        [.Tags [t1], .BeginGroup .Examples "", .ExampleEntry "|a|", .ExampleEntry "|1|",
         .Tags [t2], .BeginGroup .Examples "", .ExampleEntry "|b|", .ExampleEntry "|2|"] =
      .ok (⟨"O", [], [⟨[⟨["1"]⟩], ⟨["a"]⟩, [t1]⟩, ⟨[⟨["2"]⟩], ⟨["b"]⟩, [t2]⟩], []⟩,
        none, []) ∧
      Feature.fromLines "F" [.Tags [t1], .BeginGroup .Scenario "S"] =
        .ok (⟨"F", [], [.Bare ⟨"S", [], []⟩], none, []⟩, none, []) :=
  ⟨rfl, rfl⟩

/-! ## Claim C3 -/

/-- Claim C3 (corrected), counterexample: the claim states that
`Step::new` fails exactly on texts in which a placeholder is opened with
`<` but never closed, and rejects nothing else.  The text `a>b` contains
no `<` at all, yet the decoder rejects it, because it splits on `<` and
`>` indiscriminately. -/
theorem claim3_counterexample_stray_close :
    Step.new .Given "a>b" = .error (.unterminatedVariable "a>b") ∧
      ("a>b" : String).data.count '<' = 0 :=
  ⟨rfl, rfl⟩

/-- Claim C3 (corrected, amended): `Step::new` returns a `Step` for every
keyword and step text, failing exactly when the trimmed text contains an
odd total number of angle-bracket delimiter characters (`<` or `>`): a
`<` opened and never closed fails as the claim states, but a stray `>`
with no matching `<` is also rejected, since the decoder splits on both
delimiters indiscriminately. -/
theorem claim3_amended_step_failure_iff_odd_delims (kw : StepKeyword) (input : String) :
    (∃ s, Step.new kw input = .ok s) ↔
      (strTrim input).data.countP isAngle % 2 = 0 := by
  have hsplitlen := splitPred_length isAngle (strTrim input).data
  simp only [Step.new, strTrim_idem]
  cases hsplit : splitPred isAngle (strTrim input).data with
  | nil => exact absurd hsplit (splitPred_ne_nil _ _)
  | cons first rest =>
    rw [hsplit] at hsplitlen
    simp only [List.length_cons] at hsplitlen
    have hsome := readVarLit_isSome rest
    cases hrv : readVarLit rest with
    | none =>
      rw [hrv, Option.isSome_none] at hsome
      rw [eq_comm, decide_eq_false_iff_not] at hsome
      simp only [hrv]
      constructor
      · rintro ⟨s, hs⟩
        exact absurd hs (by simp)
      · intro hcount
        exact absurd (by omega) hsome
    | some pr =>
      obtain ⟨ls, vs⟩ := pr
      rw [hrv, Option.isSome_some] at hsome
      rw [eq_comm, decide_eq_true_eq] at hsome
      simp only [hrv]
      constructor
      · intro _
        omega
      · intro _
        exact ⟨_, rfl⟩

/-! ## Claim C6 -/

/-- Claim C6 (confirmed): every `Step` constructed by `Step::new`
satisfies `literals.length = variables.length + 1`. -/
theorem claim6_literals_length_invariant (kw : StepKeyword) (input : String)
    (s : Step) (h : Step.new kw input = .ok s) :
    s.literals.length = s.vars.length + 1 := by
  simp only [Step.new] at h
  cases hsplit : splitPred isAngle (strTrim (strTrim input)).data with
  | nil => rw [hsplit] at h; simp at h
  | cons first rest =>
    rw [hsplit] at h
    cases hrv : readVarLit rest with
    | none => simp only [hrv] at h; exact absurd h (by simp)
    | some pr =>
      obtain ⟨ls, vs⟩ := pr
      simp only [hrv, Except.ok.injEq] at h
      have hlen := readVarLit_lengths rest ls vs hrv
      rw [← h]
      simp [hlen]

/-- Witness for claim C6 at the concrete step text `a <b> c`. -/
theorem claim6_witness :
    (⟨.Given, ["a ", " c"], ["b"]⟩ : Step).literals.length =
      (⟨.Given, ["a ", " c"], ["b"]⟩ : Step).vars.length + 1 :=
  claim6_literals_length_invariant .Given "a <b> c" ⟨.Given, ["a ", " c"], ["b"]⟩ rfl

/-! ## Claim C7 -/

/-- Canonicalising delimiters coincides with splitting on them and
re-joining with alternating `<`, `>`. -/
theorem canonAngleChars_eq_joinAlt (cs : List Char) (b : Bool) :
    canonAngleChars cs b = joinAlt (splitPred isAngle cs) b := by
  induction cs generalizing b with
  | nil => rfl
  | cons c rest ih =>
    cases hs : splitPred isAngle rest with
    | nil => exact absurd hs (splitPred_ne_nil _ _)
    | cons q qs =>
      by_cases h : isAngle c
      · simp only [canonAngleChars, h, if_true, splitPred, ih, hs]
        rfl
      · simp only [canonAngleChars, h, if_false, splitPred, ih, hs, consHead]
        cases qs with
        | nil => rfl
        | cons q2 qs2 => simp [joinAlt]

/-- On success of the pairing loop, interleaving the first literal with
the parsed variables and literals re-joins the token list with alternating
canonical delimiters. -/
theorem reconstructChars_eq_joinAlt :
    ∀ (ps : List (List Char)) (p : List Char) (ls vs : List (List Char)),
    readVarLit ps = some (ls, vs) →
    reconstructChars (p :: ls) vs = joinAlt (p :: ps) true
  | [], p, ls, vs => by
    intro h
    simp only [readVarLit, Option.some.injEq, Prod.mk.injEq] at h
    rw [← h.1, ← h.2]
    rfl
  | [_], p, ls, vs => by
    intro h
    simp [readVarLit] at h
  | v :: l :: rest, p, ls, vs => by
    intro h
    cases hr : readVarLit rest with
    | none => rw [readVarLit, hr] at h; exact absurd h (by simp)
    | some pr =>
      obtain ⟨ls1, vs1⟩ := pr
      have ih := reconstructChars_eq_joinAlt rest l ls1 vs1 hr
      rw [readVarLit, hr] at h
      simp only [Option.some.injEq, Prod.mk.injEq] at h
      rw [← h.1, ← h.2]
      show p ++ '<' :: (v ++ '>' :: reconstructChars (l :: ls1) vs1) =
        p ++ '<' :: (v ++ '>' :: joinAlt (l :: rest) true)
      rw [ih]

/-- Claim C7 (corrected), counterexample: the claim states that for every
accepted step text, interleaving the parsed literals and variables (each
variable re-enclosed in angle brackets) reproduces the trimmed original
text.  The decoder accepts `a>b<c` — splitting on both delimiters
indiscriminately, it parses `b` as a variable — and reconstruction yields
`a<b>c`, which differs from the trimmed original `a>b<c`. -/
theorem claim7_counterexample_reconstruction :
    Step.new .Given "a>b<c" = .ok ⟨.Given, ["a", "c"], ["b"]⟩ ∧
      Step.reconstruct ⟨.Given, ["a", "c"], ["b"]⟩ = "a<b>c" ∧
      strTrim "a>b<c" = "a>b<c" ∧
      ("a<b>c" : String) ≠ "a>b<c" :=
  ⟨rfl, rfl, rfl, by decide⟩

/-- Claim C7 (corrected, amended): for every step accepted by `Step::new`,
interleaving the parsed literals and variables — literal, variable,
literal, …, literal, each variable re-enclosed in angle brackets —
reproduces the trimmed original step text with its angle-bracket
delimiters canonicalised to alternate `<`, `>`, `<`, `>`, …  (On texts
whose delimiters already alternate properly, canonicalisation is the
identity and the reconstruction reproduces the trimmed text itself, as
the original claim states.) -/
theorem claim7_amended_reconstruction (kw : StepKeyword) (input : String)
    (s : Step) (h : Step.new kw input = .ok s) :
    s.reconstruct = canonAngles (strTrim input) := by
  simp only [Step.new, strTrim_idem] at h
  cases hsplit : splitPred isAngle (strTrim input).data with
  | nil => rw [hsplit] at h; simp at h
  | cons first rest =>
    rw [hsplit] at h
    cases hrv : readVarLit rest with
    | none => simp only [hrv] at h; exact absurd h (by simp)
    | some pr =>
      obtain ⟨ls, vs⟩ := pr
      simp only [hrv, Except.ok.injEq] at h
      rw [← h]
      show String.mk (reconstructChars
        (((⟨first⟩ : String) :: ls.map String.mk).map String.data)
        ((vs.map String.mk).map String.data)) = ⟨canonAngleChars (strTrim input).data true⟩
      have hdata : ∀ l : List (List Char), (l.map String.mk).map String.data = l := by
        intro l
        rw [List.map_map]
        exact List.map_id l
      apply congrArg String.mk
      rw [List.map_cons, hdata, hdata, canonAngleChars_eq_joinAlt, hsplit]
      exact reconstructChars_eq_joinAlt rest first ls vs hrv

/-- Witness for claim C7 at the concrete step text `a <b> c`. -/
theorem claim7_witness :
    Step.reconstruct ⟨.Given, ["a ", " c"], ["b"]⟩ = canonAngles (strTrim "a <b> c") :=
  claim7_amended_reconstruction .Given "a <b> c" ⟨.Given, ["a ", " c"], ["b"]⟩ rfl

/-! ## Claim C8 -/

/-- Every row returned by the row-reading loop has the label row's cell
count. -/
theorem readRows_arity : ∀ (lines : List GherkinLine) (labels : ExampleRow)
    (rows : List ExampleRow) (term : Option GherkinLine) (rem : List GherkinLine),
    readRows labels lines = .ok (rows, term, rem) →
    ∀ r ∈ rows, r.entries.length = labels.entries.length
  | [], labels, rows, term, rem => by
    intro h r hr
    simp only [readRows, Except.ok.injEq, Prod.mk.injEq] at h
    rw [← h.1] at hr
    simp at hr
  | line :: rest, labels, rows, term, rem => by
    intro h r hr
    cases line with
    | BeginGroup kw title =>
      simp only [readRows, Except.ok.injEq, Prod.mk.injEq] at h
      rw [← h.1] at hr
      simp at hr
    | Tags ts =>
      simp only [readRows, Except.ok.injEq, Prod.mk.injEq] at h
      rw [← h.1] at hr
      simp at hr
    | FreeText t => simp only [readRows] at h; exact Except.noConfusion h
    | StepLine kw text => simp only [readRows] at h; exact Except.noConfusion h
    | ExampleEntry row =>
      cases hdec : ExampleRow.fromStr row with
      | error e => simp only [readRows, hdec] at h; exact Except.noConfusion h
      | ok exampleRow =>
        by_cases hlen : labels.entries.length ≠ exampleRow.entries.length
        · simp only [readRows, hdec, if_pos hlen] at h
          exact Except.noConfusion h
        · cases hrec : readRows labels rest with
          | error e =>
            simp only [readRows, hdec, if_neg hlen, hrec] at h
            exact Except.noConfusion h
          | ok tri =>
            obtain ⟨rows1, term1, rem1⟩ := tri
            have ih := readRows_arity rest labels rows1 term1 rem1 hrec
            simp only [readRows, hdec, if_neg hlen, hrec, Except.ok.injEq,
              Prod.mk.injEq] at h
            rw [← h.1] at hr
            rcases List.mem_cons.mp hr with hr1 | hr1
            · rw [hr1]
              omega
            · exact ih r hr1

/-- Claim C8 (confirmed): in every successfully parsed `ExampleBlock`,
each example row's cell count equals the labels row's cell count (first
conjunct); and a row whose decoded cell count differs from the labels'
makes the row-reading loop fail with the error that carries both counts
and both rows (second conjunct). -/
theorem claim8_block_row_arity :
    (∀ (title : String) (lines : List GherkinLine) (block : ExampleBlock)
        (term : Option GherkinLine) (rem : List GherkinLine),
      ExampleBlock.fromLines title lines = .ok (block, term, rem) →
      ∀ r ∈ block.examples, r.entries.length = block.labels.entries.length) ∧
    (∀ (labels : ExampleRow) (row : String) (exampleRow : ExampleRow)
        (rest : List GherkinLine),
      ExampleRow.fromStr row = .ok exampleRow →
      labels.entries.length ≠ exampleRow.entries.length →
      readRows labels (.ExampleEntry row :: rest) =
        .error (.rowCountMismatch exampleRow.entries.length labels.entries.length
          labels.entries exampleRow.entries)) := by
  constructor
  · intro title lines block term rem h r hr
    simp only [ExampleBlock.fromLines] at h
    by_cases htitle : ¬ (strTrim title).data.isEmpty
    · simp only [if_pos htitle] at h
      exact Except.noConfusion h
    · simp only [if_neg htitle] at h
      cases lines with
      | nil => simp at h
      | cons labelLine rest =>
        cases labelLine with
        | ExampleEntry rowText =>
          cases hdec : ExampleRow.fromStr rowText with
          | error e => simp only [hdec] at h; exact Except.noConfusion h
          | ok labels =>
            cases hrows : readRows labels rest with
            | error e => simp only [hdec, hrows] at h; exact Except.noConfusion h
            | ok tri =>
              obtain ⟨rows, term1, rem1⟩ := tri
              simp only [hdec, hrows, Except.ok.injEq, Prod.mk.injEq] at h
              have harity := readRows_arity rest labels rows term1 rem1 hrows
              have hblock := h.1
              rw [← hblock] at hr ⊢
              exact harity r hr
        | BeginGroup kw title2 => exact Except.noConfusion h
        | Tags ts => exact Except.noConfusion h
        | StepLine kw text => exact Except.noConfusion h
        | FreeText t => exact Except.noConfusion h
  · intro labels row exampleRow rest hdec hlen
    simp only [readRows, hdec, if_pos hlen]

/-- Witness for claim C8 on a concrete block with labels `a`, `b` and one
example row `c`, `d`. -/
theorem claim8_witness :
    (⟨["c", "d"]⟩ : ExampleRow).entries.length =
      (⟨["a", "b"]⟩ : ExampleRow).entries.length :=
  claim8_block_row_arity.1 "" [.ExampleEntry "|a|b|", .ExampleEntry "|c|d|"]
    ⟨[⟨["c", "d"]⟩], ⟨["a", "b"]⟩, []⟩ none [] rfl ⟨["c", "d"]⟩ (by simp)

/-! ## Claim C9 -/

/-- Folding `lowest_common_type` keeps the accumulator exactly when every
element equals it, and collapses to `String` otherwise. -/
theorem foldl_lowestCommonType (l : List CSType) (x : CSType) :
    l.foldl CSType.lowestCommonType x =
      if ∀ a ∈ l, a = x then x else CSType.String := by
  induction l generalizing x with
  | nil => simp
  | cons y ys ih =>
    simp only [List.foldl_cons]
    by_cases hyx : y = x
    · subst hyx
      have hlct : CSType.lowestCommonType y y = y := by
        simp [CSType.lowestCommonType]
      rw [hlct, ih]
      by_cases hall : ∀ a ∈ ys, a = y
      · have hall2 : ∀ a ∈ y :: ys, a = y := by
          intro a ha
          rcases List.mem_cons.mp ha with h2 | h2
          · exact h2
          · exact hall a h2
        rw [if_pos hall, if_pos hall2]
      · have hall2 : ¬ ∀ a ∈ y :: ys, a = y := by
          intro hc
          exact hall fun a ha => hc a (List.mem_cons_of_mem y ha)
        rw [if_neg hall, if_neg hall2]
    · have hlct : CSType.lowestCommonType x y = CSType.String := by
        simp only [CSType.lowestCommonType, ite_eq_right_iff]
        intro hxy
        exact absurd hxy.symm hyx
      rw [hlct, ih]
      have hnot : ¬ ∀ a ∈ y :: ys, a = x := by
        intro hc
        exact hyx (hc y (List.mem_cons_self y ys))
      rw [if_neg hnot]
      by_cases hall : ∀ a ∈ ys, a = CSType.String
      · rw [if_pos hall]
      · rw [if_neg hall]

/-- `reduce` with `lowest_common_type` on a non-empty list: the head if
every other element equals it, otherwise `String`. -/
theorem reduceTypes_cons (x : CSType) (xs : List CSType) :
    reduceTypes (x :: xs) = some (if ∀ a ∈ xs, a = x then x else CSType.String) := by
  simp only [reduceTypes, foldl_lowestCommonType]

/-- The `lowest_common_type` reduction is invariant under permutation. -/
theorem reduceTypes_perm {l l1 : List CSType} (h : l.Perm l1) :
    reduceTypes l = reduceTypes l1 := by
  cases l with
  | nil =>
    rw [← h.nil_eq]
  | cons x xs =>
    cases l1 with
    | nil =>
      have := h.length_eq
      simp at this
    | cons y ys =>
      rw [reduceTypes_cons, reduceTypes_cons]
      by_cases hx : ∀ a ∈ xs, a = x
      · have h1 : ∀ a ∈ x :: xs, a = x := by
          intro a ha
          rcases List.mem_cons.mp ha with h2 | h2
          · exact h2
          · exact hx a h2
        have hyx : y = x := h1 y (h.mem_iff.mpr (by simp))
        have hys : ∀ a ∈ ys, a = y := by
          intro a ha
          rw [hyx]
          exact h1 a (h.mem_iff.mpr (by simp [ha]))
        rw [if_pos hx, if_pos hys, hyx]
      · by_cases hy : ∀ a ∈ ys, a = y
        · exfalso
          apply hx
          have h1 : ∀ a ∈ y :: ys, a = y := by
            intro a ha
            rcases List.mem_cons.mp ha with h2 | h2
            · exact h2
            · exact hy a h2
          have hxy : x = y := h1 x (h.mem_iff.mp (by simp))
          intro a ha
          have := h1 a (h.mem_iff.mp (by simp [ha]))
          rw [this, ← hxy]
        · rw [if_neg hx, if_neg hy]

/-- Claim C9 (confirmed): the inferred column types depend only on the
blocks' label rows (in place) and on the multiset of example rows — an
outline whose rows are permuted, within one block or across blocks with
the labels left in place, infers exactly the same types for every
column. -/
theorem claim9_row_permutation_invariance (blocks blocks1 : List ExampleBlock)
    (hlabels : blocks.map ExampleBlock.labels = blocks1.map ExampleBlock.labels)
    (hrows : (allExampleRows blocks).Perm (allExampleRows blocks1)) :
    calculateArgTypes blocks = calculateArgTypes blocks1 := by
  have hcount : argCount blocks = argCount blocks1 := by
    cases blocks with
    | nil =>
      cases blocks1 with
      | nil => rfl
      | cons c cs => simp at hlabels
    | cons b bs =>
      cases blocks1 with
      | nil => simp at hlabels
      | cons c cs =>
        simp only [List.map_cons, List.cons.injEq] at hlabels
        simp [argCount, hlabels.1]
  unfold calculateArgTypes
  rw [hcount]
  apply List.map_congr_left
  intro i _
  rw [reduceTypes_perm (hrows.map (cellType i))]

/-- Witness for claim C9: swapping the two rows of a one-column block
leaves the inferred types unchanged. -/
theorem claim9_witness :
    calculateArgTypes [⟨[⟨["1"]⟩, ⟨["x"]⟩], ⟨["a"]⟩, []⟩] =
      calculateArgTypes [⟨[⟨["x"]⟩, ⟨["1"]⟩], ⟨["a"]⟩, []⟩] :=
  claim9_row_permutation_invariance _ _ rfl (List.Perm.swap _ _ _)

/-! ## Claim C10 -/

/-- Claim C10 (confirmed): type inference is total and never indexes out
of bounds — it returns exactly one type per column of the first block's
label row (first conjunct); a row with no cell at the examined index
contributes `String` for that column (second conjunct); and an outline
with no example rows at all (in particular one with no blocks) infers
`String` for every column (third conjunct). -/
theorem claim10_inference_total :
    (∀ blocks : List ExampleBlock,
      (calculateArgTypes blocks).length = argCount blocks) ∧
    (∀ (i : Nat) (row : ExampleRow),
      row.entries.get? i = none → cellType i row = CSType.String) ∧
    (∀ blocks : List ExampleBlock, allExampleRows blocks = [] →
      calculateArgTypes blocks = List.replicate (argCount blocks) CSType.String) := by
  refine ⟨?_, ?_, ?_⟩
  · intro blocks
    simp [calculateArgTypes]
  · intro i row h
    simp only [cellType]
    rw [h]
  · intro blocks h
    unfold calculateArgTypes
    rw [h]
    show (List.range (argCount blocks)).map
      (fun _ => (reduceTypes []).getD CSType.String) = _
    simp only [reduceTypes, Option.getD_none]
    rw [List.map_const', List.length_range]

/-- Witness for claim C10: a one-cell row contributes `String` at column
5, and a block with labels `a`, `b` and no rows infers `String` for both
columns. -/
theorem claim10_witness :
    cellType 5 ⟨["1"]⟩ = CSType.String ∧
      calculateArgTypes [⟨[], ⟨["a", "b"]⟩, []⟩] = List.replicate 2 CSType.String :=
  ⟨claim10_inference_total.2.1 5 ⟨["1"]⟩ rfl,
    claim10_inference_total.2.2 [⟨[], ⟨["a", "b"]⟩, []⟩] rfl⟩

end GherkinReader
